import Mathlib

/-!
# Directory lock (`dirlock`): embedding and verification

`dirlock.go` builds a directory lock out of four services of its environment:
`os.Open`, `(*os.File).Fd`, `(*os.File).Close` and `syscall.Flock`.  The
environment is modelled here as an explicit state (path table, table of open
descriptors, advisory lock table, errors pending for `close`, log of the system
calls issued, and the finalizers the Go runtime holds for open files); the
three functions of the package (`New`, `Lock`, `Unlock`) are translated line by
line on top of it, passing the state explicitly.

The model covers these outcomes: `ENOENT` and `EACCES` for `open`; `EBADF`,
`EINVAL` and `EWOULDBLOCK` for `flock`; `EBADF` for `close` of a descriptor
that is not open, and any error the state holds pending for the inode (such as
`EINTR`) for `close` of an open one.  An `os.File` that nothing refers to any
more is closed when the garbage collector runs (`runtime_GC`).  The model
leaves out exhaustion of descriptors or lock records and changes of the path
table during a run.  Descriptors are numbered in one space for all callers,
each standing for an open file of its own.
-/

namespace dirlock

/-! ## The environment: error values -/

/-- The error numbers the modelled system calls can report. -/
inductive Errno where
  | ENOENT
  | EACCES
  | EBADF
  | EAGAIN
  | EINVAL
  | EINTR
  deriving DecidableEq, Repr

/-- Text of `syscall.Errno.Error()` for the error numbers above
(`EWOULDBLOCK` is the same number as `EAGAIN`). -/
def Errno.Error : Errno → String
  | .ENOENT => "no such file or directory"
  | .EACCES => "permission denied"
  | .EBADF => "bad file descriptor"
  | .EAGAIN => "resource temporarily unavailable"
  | .EINVAL => "invalid argument"
  | .EINTR => "interrupted system call"

/-- The Go `error` values that occur in the package: a bare `syscall.Errno`,
an `*os.PathError`, the string error built by `fmt.Errorf`, and the two
sentinel errors of `os` used by `Close`. -/
inductive GoError where
  | errno (e : Errno)
  | pathError (op : String) (path : String) (err : GoError)
  | errorString (s : String)
  | ErrInvalid
  | ErrClosed
  deriving DecidableEq, Repr

/-- The method `Error()` of the error values. -/
def GoError.Error : GoError → String
  | .errno e => e.Error
  | .pathError op path err => op ++ " " ++ path ++ ": " ++ err.Error
  | .errorString s => s
  | .ErrInvalid => "invalid argument"
  | .ErrClosed => "file already closed"

/-- An error is open-class when it is the `*os.PathError` of an `open`. -/
def GoError.isOpenError : GoError → Bool
  | .pathError op _ _ => op == "open"
  | _ => false

/-! ## The environment: kernel state -/

/-- What a path names. -/
inductive FileKind where
  | directory
  | regular
  deriving DecidableEq, Repr

/-- The target of a path: inode number, kind, and whether the caller may open it
for reading. -/
structure Inode where
  ino : Nat
  kind : FileKind
  readable : Bool
  deriving DecidableEq, Repr

/-- One record of the advisory lock table: descriptor `fd` holds a lock on inode
`ino`, exclusive or shared. -/
structure FLock where
  fd : Nat
  ino : Nat
  exclusive : Bool
  deriving DecidableEq, Repr

/-- The system calls the package can cause, as logged by the kernel model. -/
inductive Syscall where
  | openat (path : String)
  | flock (fd : Int) (how : Nat)
  | close (fd : Int)
  deriving DecidableEq, Repr

/-- State of the environment: the path table, the open descriptors
(descriptor and the inode it refers to; every `open` creates a descriptor of
its own, none is duplicated), the advisory lock table, the log of system calls,
the error that `close` of a descriptor on an inode will report, for the inodes
that have one pending, and, on the side of the Go runtime, the descriptors of
the `os.File` objects that carry a finalizer. -/
structure Kernel where
  fs : List (String × Inode)
  fds : List (Nat × Nat)
  locks : List FLock
  trace : List Syscall
  closeErrs : List (Nat × Errno)
  finalizers : List Int
  deriving DecidableEq, Repr

/-- The state right after boot: nothing open, empty lock table, no file. -/
def Kernel.boot (fs : List (String × Inode)) (closeErrs : List (Nat × Errno)) : Kernel :=
  { fs := fs, fds := [], locks := [], trace := [], closeErrs := closeErrs, finalizers := [] }

/-- Search for the lowest number from `n` on that is not in `used`. -/
def firstFreeFrom (used : List Nat) : Nat → Nat → Nat
  | 0, n => n
  | fuel + 1, n => if n ∈ used then firstFreeFrom used fuel (n + 1) else n

/-- The lowest descriptor number that is not open. -/
def Kernel.lowestFreeFd (k : Kernel) : Nat :=
  firstFreeFrom (k.fds.map Prod.fst) (k.fds.length) 0

/-- `open(path, O_RDONLY)`: fails with `ENOENT` when the path names nothing and
with `EACCES` when it may not be read; otherwise allocates the lowest free
descriptor for the inode, whatever its kind. -/
def sys_open (path : String) (k : Kernel) : Except Errno Nat × Kernel :=
  let k1 := { k with trace := k.trace ++ [Syscall.openat path] }
  match k.fs.lookup path with
  | none => (.error .ENOENT, k1)
  | some node =>
    if node.readable then
      (.ok k.lowestFreeFd, { k1 with fds := k.fds ++ [(k.lowestFreeFd, node.ino)] })
    else
      (.error .EACCES, k1)

/-- `syscall.LOCK_SH`: shared lock. -/
def LOCK_SH : Nat := 1

/-- `syscall.LOCK_EX`: exclusive lock. -/
def LOCK_EX : Nat := 2

/-- `syscall.LOCK_NB`: do not wait when the lock cannot be granted. -/
def LOCK_NB : Nat := 4

/-- `syscall.LOCK_UN`: release the lock. -/
def LOCK_UN : Nat := 8

/-- The lock table with the records of descriptor `fd` removed. -/
def dropLocks (fd : Nat) (locks : List FLock) : List FLock :=
  locks.filter (fun e => e.fd ≠ fd)

/-- A request of `fd` on `ino` conflicts with a record of another descriptor on
the same inode: with any such record for an exclusive request, with an
exclusive one for a shared request. -/
def conflicts (fd ino : Nat) (exclusive : Bool) (locks : List FLock) : Bool :=
  locks.any (fun e => e.ino = ino ∧ e.fd ≠ fd ∧ (exclusive ∨ e.exclusive))

/-- `flock(fd, how)`.  The result is `none` when the call does not return (a
request without `LOCK_NB` that conflicts waits for the holder).  A descriptor
that is not open gives `EBADF`.  `LOCK_UN` drops the lock of the descriptor.
`LOCK_SH` and `LOCK_EX` are granted, replacing the descriptor's own record,
unless they conflict with another descriptor's record; with `LOCK_NB` a
conflicting request fails at once with `EWOULDBLOCK`. -/
def sys_flock (fd : Int) (how : Nat) (k : Kernel) : Option (Option Errno × Kernel) :=
  let k1 := { k with trace := k.trace ++ [Syscall.flock fd how] }
  if fd < 0 then some (some .EBADF, k1) else
  match k.fds.lookup fd.toNat with
  | none => some (some .EBADF, k1)
  | some ino =>
    let nb := how &&& LOCK_NB ≠ 0
    let op := how - (how &&& LOCK_NB)
    if op = LOCK_UN then
      some (none, { k1 with locks := dropLocks fd.toNat k.locks })
    else if op = LOCK_EX ∨ op = LOCK_SH then
      let ex := decide (op = LOCK_EX)
      if conflicts fd.toNat ino ex k.locks then
        if nb then some (some .EAGAIN, k1) else none
      else
        some (none, { k1 with locks := dropLocks fd.toNat k.locks ++ [⟨fd.toNat, ino, ex⟩] })
    else
      some (some .EINVAL, k1)

/-- `close(fd)`: `EBADF` when the descriptor is not open; otherwise the
descriptor goes away and, being the only reference to its open file, takes its
lock with it.  That happens also when `close` reports the error pending for the
inode: the descriptor is released all the same. -/
def sys_close (fd : Int) (k : Kernel) : Option Errno × Kernel :=
  let k1 := { k with trace := k.trace ++ [Syscall.close fd] }
  if fd < 0 then (some .EBADF, k1) else
  match k.fds.lookup fd.toNat with
  | none => (some .EBADF, k1)
  | some ino =>
    (k.closeErrs.lookup ino,
      { k1 with fds := k.fds.filter (fun p => p.1 ≠ fd.toNat),
                locks := dropLocks fd.toNat k.locks })

/-! ## The environment: `os.File` and `syscall.Flock` -/

/-- An `os.File`: its name and its descriptor, which is `-1` once the file has
been closed. -/
structure File where
  name : String
  sysfd : Int
  deriving DecidableEq, Repr

/-- `os.Open(name)`: an open failure is reported as
`&PathError{Op: "open", Path: name, Err: errno}`; the file returned on success
gets a finalizer that will close it. -/
def os_Open (name : String) (k : Kernel) : Except GoError File × Kernel :=
  match sys_open name k with
  | (.error e, k1) => (.error (.pathError "open" name (.errno e)), k1)
  | (.ok fd, k1) =>
    (.ok { name := name, sysfd := (fd : Int) },
      { k1 with finalizers := k1.finalizers ++ [(fd : Int)] })

/-- The method `(*os.File).Fd`: on a nil receiver it returns `^uintptr(0)`,
which `int(...)` turns into `-1`; on a closed file the stored descriptor is
`-1` as well. -/
def File.Fd : Option File → Int
  | none => -1
  | some f => f.sysfd

/-- The method `(*os.File).Close`: `ErrInvalid` on a nil receiver, a
`PathError` carrying `ErrClosed` on a file already closed (no system call in
either case); otherwise `close` is called once, the file is marked closed
whatever `close` reports, and its finalizer is cleared. -/
def File.Close : Option File → Kernel → Option GoError × Option File × Kernel
  | none, k => (some .ErrInvalid, none, k)
  | some f, k =>
    if f.sysfd = -1 then
      (some (.pathError "close" f.name .ErrClosed), some f, k)
    else
      match sys_close f.sysfd k with
      | (e, k1) =>
        (e.map (fun e => GoError.pathError "close" f.name (.errno e)),
          some { f with sysfd := -1 },
          { k1 with finalizers := k1.finalizers.filter (fun x => x ≠ f.sysfd) })

/-- The finalizer of an `os.File` with descriptor `fd`: it closes the file, as
`Close` does, with nobody to receive the result. -/
def runFinalizer (fd : Int) (k : Kernel) : Kernel :=
  (File.Close (some { name := "", sysfd := fd }) k).2.2

/-- A run of the garbage collector, `live` being the files some instance still
refers to: every file that carries a finalizer and is not among them is
finalized. -/
def runtime_GC (live : List File) (k : Kernel) : Kernel :=
  (k.finalizers.filter (fun fd => !(live.any (fun f => f.sysfd = fd)))).foldl
    (fun k1 fd => runFinalizer fd k1) k

/-- `syscall.Flock(fd, how)`: the error is the bare `syscall.Errno`. -/
def syscall_Flock (fd : Int) (how : Nat) (k : Kernel) : Option (Option GoError × Kernel) :=
  (sys_flock fd how k).map (fun r => (r.1.map GoError.errno, r.2))

/-- `fmt.Errorf("cannot flock directory %s - %s", dir, err)`. -/
def flockErrorf (dir : String) (err : GoError) : GoError :=
  .errorString ("cannot flock directory " ++ dir ++ " - " ++ err.Error)

/-! ## The package -/

/-- `type DirLock struct { dir string; f *os.File }`; a nil `f` is `none`. -/
structure DirLock where
  dir : String
  f : Option File
  deriving DecidableEq, Repr

/-- `func New(dir string) *DirLock`. -/
def New (dir : String) : DirLock :=
  { dir := dir, f := none }

/-- `func (l *DirLock) Lock() error`.  The result is the returned error (`none`
for nil), the instance and the kernel afterwards; `none` when the call does not
return. -/
def DirLock.Lock (l : DirLock) (k : Kernel) : Option (Option GoError × DirLock × Kernel) :=
  match os_Open l.dir k with
  | (.error err, k1) => some (some err, l, k1)
  | (.ok f, k1) =>
    let l1 := { l with f := some f }
    match syscall_Flock (File.Fd (some f)) (LOCK_EX ||| LOCK_NB) k1 with
    | none => none
    | some (some err, k2) => some (some (flockErrorf l1.dir err), l1, k2)
    | some (none, k2) => some (none, l1, k2)

/-- `func (l *DirLock) Unlock() error`.  The receiver of the deferred
`l.f.Close()` is evaluated first, the release request is issued, and the
deferred `Close` runs on the way out, its result dropped. -/
def DirLock.Unlock (l : DirLock) (k : Kernel) : Option (Option GoError × DirLock × Kernel) :=
  let deferred := l.f
  match syscall_Flock (File.Fd l.f) LOCK_UN k with
  | none => none
  | some (r, k1) =>
    match File.Close deferred k1 with
    | (_, f1, k2) => some (r, { l with f := f1 }, k2)

/-! ## Programs over the package: calls on a heap of instances -/

/-- A step of a client program: build an instance, call `Lock` or `Unlock` on
the instance numbered `i`, or let the garbage collector run. -/
inductive Call where
  | New (dir : String)
  | Lock (i : Nat)
  | Unlock (i : Nat)
  | GC
  deriving DecidableEq, Repr

/-- The kernel together with the instances built so far. -/
structure World where
  kernel : Kernel
  heap : List DirLock
  deriving DecidableEq, Repr

/-- The world before any call: booted kernel, no instance. -/
def World.boot (fs : List (String × Inode)) (closeErrs : List (Nat × Errno)) : World :=
  { kernel := Kernel.boot fs closeErrs, heap := [] }

/-- One step.  A call on an instance number that does not exist changes
nothing; the result is `none` when the call does not return.  For the garbage
collector the live files are those the instances refer to. -/
def World.step (w : World) : Call → Option World
  | .New dir => some { w with heap := w.heap ++ [New dir] }
  | .Lock i =>
    match w.heap[i]? with
    | none => some w
    | some l => (l.Lock w.kernel).map (fun r => { kernel := r.2.2, heap := w.heap.set i r.2.1 })
  | .Unlock i =>
    match w.heap[i]? with
    | none => some w
    | some l => (l.Unlock w.kernel).map (fun r => { kernel := r.2.2, heap := w.heap.set i r.2.1 })
  | .GC => some { w with kernel := runtime_GC (w.heap.filterMap (fun l => l.f)) w.kernel }

/-- A sequence of calls, one after the other. -/
def World.run (w : World) : List Call → Option World
  | [] => some w
  | c :: cs => (w.step c).bind (fun w1 => w1.run cs)

/-! ## Properties of kernel states and instances -/

/-- Mutual exclusion on the lock table: a descriptor that is open and holds
an exclusive lock on an inode is the only open descriptor holding any lock on
that inode. -/
def Kernel.MutualExclusion (k : Kernel) : Prop :=
  ∀ e1 ∈ k.locks, ∀ e2 ∈ k.locks,
    e1.exclusive = true → e1.ino = e2.ino →
    (e1.fd, e1.ino) ∈ k.fds → (e2.fd, e2.ino) ∈ k.fds → e1.fd = e2.fd

/-- The invariant carried along a run: a record of an exclusive lock is the
only record on its inode, up to the descriptor. -/
def LockInv (locks : List FLock) : Prop :=
  ∀ e1 ∈ locks, ∀ e2 ∈ locks, e1.exclusive = true → e1.ino = e2.ino → e1.fd = e2.fd

/-- No record of the lock table is on inode `ino`. -/
def Kernel.unlocked (k : Kernel) (ino : Nat) : Prop :=
  ∀ e ∈ k.locks, e.ino ≠ ino

/-- The states of an instance named in the specification's state machine. -/
inductive Phase where
  | UNOPENED
  | LOCKED
  | DEGRADED
  | CLOSED
  deriving DecidableEq, Repr

/-- The state of an instance as it can be read off the instance and the kernel:
no file yet; a closed file; an open descriptor that holds an exclusive lock; a
descriptor without a lock. -/
def DirLock.phase (l : DirLock) (k : Kernel) : Phase :=
  match l.f with
  | none => .UNOPENED
  | some f =>
    if f.sysfd = -1 then .CLOSED
    else if k.locks.any
        (fun e => (e.fd : Int) = f.sysfd ∧ e.exclusive = true ∧ (e.fd, e.ino) ∈ k.fds) then .LOCKED
    else .DEGRADED

/-! ## Concrete inputs -/

/-- A small path table: a readable directory, a readable regular file, an
unreadable directory. -/
def exampleFs : List (String × Inode) :=
  [("/tmp/x", ⟨11, .directory, true⟩),
   ("/etc/hosts", ⟨12, .regular, true⟩),
   ("/root", ⟨13, .directory, false⟩)]

/-- The booted kernel over `exampleFs`. -/
def exampleKernel : Kernel := Kernel.boot exampleFs []

/-- The kernel after one instance has locked `/tmp/x` through descriptor 0. -/
def heldKernel : Kernel :=
  { fs := exampleFs, fds := [(0, 11)], locks := [⟨0, 11, true⟩],
    trace := [Syscall.openat "/tmp/x", Syscall.flock 0 6],
    closeErrs := [], finalizers := [0] }

/-- The instance that locked `/tmp/x` in `heldKernel`. -/
def heldInstance : DirLock :=
  { dir := "/tmp/x", f := some ⟨"/tmp/x", 0⟩ }

/-- The same instance after its Unlock: the file is closed. -/
def closedInstance : DirLock :=
  { dir := "/tmp/x", f := some ⟨"/tmp/x", -1⟩ }

/-- The kernel after Lock and Unlock of that instance. -/
def closedKernel : Kernel :=
  { fs := exampleFs, fds := [], locks := [],
    trace := [Syscall.openat "/tmp/x", Syscall.flock 0 6, Syscall.flock 0 8, Syscall.close 0],
    closeErrs := [], finalizers := [] }

/-- A second instance whose Lock failed on the conflict in `heldKernel`: it
keeps descriptor 1, without a lock. -/
def degradedInstance : DirLock :=
  { dir := "/tmp/x", f := some ⟨"/tmp/x", 1⟩ }

/-- The kernel after that failed Lock. -/
def degradedKernel : Kernel :=
  { fs := exampleFs, fds := [(0, 11), (1, 11)], locks := [⟨0, 11, true⟩],
    trace := [Syscall.openat "/tmp/x", Syscall.flock 0 6,
      Syscall.openat "/tmp/x", Syscall.flock 1 6],
    closeErrs := [], finalizers := [0, 1] }

/-- The kernel after the holder's Unlock in `degradedKernel`. -/
def releasedKernel : Kernel :=
  { fs := exampleFs, fds := [(1, 11)], locks := [],
    trace := [Syscall.openat "/tmp/x", Syscall.flock 0 6,
      Syscall.openat "/tmp/x", Syscall.flock 1 6, Syscall.flock 0 8, Syscall.close 0],
    closeErrs := [], finalizers := [1] }

/-- The kernel after Lock, a second Lock and Unlock on one instance: the
descriptor 0 of the first Lock is open and holds the lock, and no instance
refers to its file. -/
def leakedKernel : Kernel :=
  { fs := exampleFs, fds := [(0, 11)], locks := [⟨0, 11, true⟩],
    trace := [Syscall.openat "/tmp/x", Syscall.flock 0 6,
      Syscall.openat "/tmp/x", Syscall.flock 1 6, Syscall.flock 1 8, Syscall.close 1],
    closeErrs := [], finalizers := [0] }

/-- The kernel after the garbage collector has run in `leakedKernel`. -/
def collectedKernel : Kernel :=
  { fs := exampleFs, fds := [], locks := [],
    trace := [Syscall.openat "/tmp/x", Syscall.flock 0 6,
      Syscall.openat "/tmp/x", Syscall.flock 1 6, Syscall.flock 1 8, Syscall.close 1,
      Syscall.close 0],
    closeErrs := [], finalizers := [] }

/-- The booted kernel over `exampleFs` in which `close` of a descriptor on
`/tmp/x` will report `EINTR`. -/
def flakyKernel : Kernel := Kernel.boot exampleFs [(11, Errno.EINTR)]

/-- The kernel after Lock on `/tmp/x` in `flakyKernel`. -/
def flakyHeldKernel : Kernel :=
  { fs := exampleFs, fds := [(0, 11)], locks := [⟨0, 11, true⟩],
    trace := [Syscall.openat "/tmp/x", Syscall.flock 0 6],
    closeErrs := [(11, Errno.EINTR)], finalizers := [0] }

/-- The kernel after the release request of the Unlock that follows. -/
def flakyReleasedKernel : Kernel :=
  { fs := exampleFs, fds := [(0, 11)], locks := [],
    trace := [Syscall.openat "/tmp/x", Syscall.flock 0 6, Syscall.flock 0 8],
    closeErrs := [(11, Errno.EINTR)], finalizers := [0] }

/-- The kernel after that Unlock. -/
def flakyClosedKernel : Kernel :=
  { fs := exampleFs, fds := [], locks := [],
    trace := [Syscall.openat "/tmp/x", Syscall.flock 0 6, Syscall.flock 0 8, Syscall.close 0],
    closeErrs := [(11, Errno.EINTR)], finalizers := [] }

/-! ## Lemmas on the kernel model -/

theorem firstFreeFrom_mem_run (used : List Nat) :
    ∀ (fuel n : Nat), firstFreeFrom used fuel n ∈ used → ∀ i, i ≤ fuel → n + i ∈ used := by
  intro fuel
  induction fuel with
  | zero =>
    intro n h i hi
    have : i = 0 := by omega
    subst this
    simpa [firstFreeFrom] using h
  | succ fuel ih =>
    intro n h i hi
    unfold firstFreeFrom at h
    by_cases hn : n ∈ used
    · rw [if_pos hn] at h
      rcases Nat.eq_zero_or_pos i with h0 | hpos
      · subst h0; simpa using hn
      · have := ih (n + 1) h (i - 1) (by omega)
        have e : n + 1 + (i - 1) = n + i := by omega
        rwa [e] at this
    · rw [if_neg hn] at h
      exact absurd h hn

theorem firstFreeFrom_not_mem (used : List Nat) :
    firstFreeFrom used used.length 0 ∉ used := by
  intro h
  have hall := firstFreeFrom_mem_run used used.length 0 h
  have hsub : Finset.range (used.length + 1) ⊆ used.toFinset := by
    intro i hi
    have hi' : i ≤ used.length := by
      have := Finset.mem_range.mp hi
      omega
    have := hall i hi'
    simpa using this
  have hcard := Finset.card_le_card hsub
  have h2 : used.toFinset.card ≤ used.length := List.toFinset_card_le used
  rw [Finset.card_range] at hcard
  omega

theorem lookup_eq_none_of_not_mem_keys (l : List (Nat × Nat)) (a : Nat)
    (h : a ∉ l.map Prod.fst) : l.lookup a = none := by
  induction l with
  | nil => rfl
  | cons p l ih =>
    obtain ⟨x, y⟩ := p
    simp only [List.map_cons, List.mem_cons, not_or] at h
    have hne : (a == x) = false := by simpa using h.1
    simp [List.lookup, hne, ih h.2]

theorem lookup_append_fresh (l : List (Nat × Nat)) (a b : Nat)
    (h : l.lookup a = none) : (l ++ [(a, b)]).lookup a = some b := by
  induction l with
  | nil => simp [List.lookup]
  | cons p l ih =>
    obtain ⟨x, y⟩ := p
    by_cases hx : (a == x) = true
    · simp [List.lookup, hx] at h
    · have hx' : (a == x) = false := by simpa using hx
      simp only [List.lookup, hx'] at h
      simp [List.lookup, hx', ih h]

theorem lowestFreeFd_not_open (k : Kernel) : k.lowestFreeFd ∉ k.fds.map Prod.fst := by
  have := firstFreeFrom_not_mem (k.fds.map Prod.fst)
  simpa [Kernel.lowestFreeFd] using this

theorem lookup_lowestFreeFd (k : Kernel) : k.fds.lookup k.lowestFreeFd = none :=
  lookup_eq_none_of_not_mem_keys _ _ (lowestFreeFd_not_open k)

theorem lockHow_op : (LOCK_EX ||| LOCK_NB) - ((LOCK_EX ||| LOCK_NB) &&& LOCK_NB) = LOCK_EX := by decide
theorem lockHow_nb : (LOCK_EX ||| LOCK_NB) &&& LOCK_NB ≠ 0 := by decide



theorem flock_lock_fresh (k : Kernel) (fd ino : Nat) (tr : List Syscall) (fin : List Int)
    (hfd : k.fds.lookup fd = none) :
    sys_flock (fd : Int) (LOCK_EX ||| LOCK_NB)
        { k with fds := k.fds ++ [(fd, ino)], trace := tr, finalizers := fin } =
      if conflicts fd ino true k.locks then
        some (some .EAGAIN,
          { k with fds := k.fds ++ [(fd, ino)],
                   trace := tr ++ [Syscall.flock fd (LOCK_EX ||| LOCK_NB)],
                   finalizers := fin })
      else
        some (none,
          { k with fds := k.fds ++ [(fd, ino)],
                   locks := dropLocks fd k.locks ++ [⟨fd, ino, true⟩],
                   trace := tr ++ [Syscall.flock fd (LOCK_EX ||| LOCK_NB)],
                   finalizers := fin }) := by
  have h1 : ¬ ((fd : Int) < 0) := by omega
  have h2 : (k.fds ++ [(fd, ino)]).lookup fd = some ino := lookup_append_fresh _ _ _ hfd
  have h3 : LOCK_EX ≠ LOCK_UN := by decide
  simp only [sys_flock, h1, if_false, Int.toNat_ofNat, h2, lockHow_op, h3, true_or, if_true,
    decide_True, lockHow_nb, ne_eq, not_false_eq_true]

theorem Lock_open_enoent (l : DirLock) (k : Kernel) (h : k.fs.lookup l.dir = none) :
    l.Lock k = some (some (.pathError "open" l.dir (.errno .ENOENT)), l,
      { k with trace := k.trace ++ [Syscall.openat l.dir] }) := by
  simp [DirLock.Lock, os_Open, sys_open, h]

theorem Lock_open_eacces (l : DirLock) (k : Kernel) (node : Inode)
    (h : k.fs.lookup l.dir = some node) (hr : node.readable = false) :
    l.Lock k = some (some (.pathError "open" l.dir (.errno .EACCES)), l,
      { k with trace := k.trace ++ [Syscall.openat l.dir] }) := by
  simp [DirLock.Lock, os_Open, sys_open, h, hr]

theorem Lock_granted (l : DirLock) (k : Kernel) (node : Inode)
    (h : k.fs.lookup l.dir = some node) (hr : node.readable = true)
    (hc : conflicts k.lowestFreeFd node.ino true k.locks = false) :
    l.Lock k = some (none, { l with f := some ⟨l.dir, k.lowestFreeFd⟩ },
      { k with fds := k.fds ++ [(k.lowestFreeFd, node.ino)],
               locks := dropLocks k.lowestFreeFd k.locks ++ [⟨k.lowestFreeFd, node.ino, true⟩],
               trace := k.trace ++ [Syscall.openat l.dir,
                 Syscall.flock k.lowestFreeFd (LOCK_EX ||| LOCK_NB)],
               finalizers := k.finalizers ++ [(k.lowestFreeFd : Int)] }) := by
  have hf := flock_lock_fresh k k.lowestFreeFd node.ino (k.trace ++ [Syscall.openat l.dir])
    (k.finalizers ++ [(k.lowestFreeFd : Int)]) (lookup_lowestFreeFd k)
  simp only [hc] at hf
  simp [DirLock.Lock, os_Open, sys_open, h, hr, syscall_Flock, File.Fd, hf]

theorem Lock_conflict (l : DirLock) (k : Kernel) (node : Inode)
    (h : k.fs.lookup l.dir = some node) (hr : node.readable = true)
    (hc : conflicts k.lowestFreeFd node.ino true k.locks = true) :
    l.Lock k = some (some (flockErrorf l.dir (.errno .EAGAIN)),
      { l with f := some ⟨l.dir, k.lowestFreeFd⟩ },
      { k with fds := k.fds ++ [(k.lowestFreeFd, node.ino)],
               trace := k.trace ++ [Syscall.openat l.dir,
                 Syscall.flock k.lowestFreeFd (LOCK_EX ||| LOCK_NB)],
               finalizers := k.finalizers ++ [(k.lowestFreeFd : Int)] }) := by
  have hf := flock_lock_fresh k k.lowestFreeFd node.ino (k.trace ++ [Syscall.openat l.dir])
    (k.finalizers ++ [(k.lowestFreeFd : Int)]) (lookup_lowestFreeFd k)
  simp only [hc] at hf
  simp [DirLock.Lock, os_Open, sys_open, h, hr, syscall_Flock, File.Fd, hf]

/-! ## Lemmas on release and close -/

theorem unlockHow_op : LOCK_UN - (LOCK_UN &&& LOCK_NB) = LOCK_UN := by decide

theorem lookup_isSome_of_mem (l : List (Nat × Nat)) (a b : Nat) (h : (a, b) ∈ l) :
    ∃ c, l.lookup a = some c := by
  induction l with
  | nil => simp at h
  | cons p l ih =>
    obtain ⟨x, y⟩ := p
    by_cases hx : (a == x) = true
    · exact ⟨y, by simp [List.lookup, hx]⟩
    · have hx' : (a == x) = false := by simpa using hx
      have hne : a ≠ x := by simpa using hx
      have hm : (a, b) ∈ l := by
        rcases List.mem_cons.mp h with h1 | h1
        · exact absurd (congrArg Prod.fst h1) hne
        · exact h1
      obtain ⟨c, hc⟩ := ih hm
      exact ⟨c, by simp [List.lookup, hx', hc]⟩

/-- The release request always returns: nil on an open descriptor, whose record
it drops, `EBADF` otherwise. -/
theorem flock_unlock (fd : Int) (k : Kernel) :
    sys_flock fd LOCK_UN k =
      if 0 ≤ fd ∧ (k.fds.lookup fd.toNat).isSome then
        some (none, { k with locks := dropLocks fd.toNat k.locks,
                             trace := k.trace ++ [Syscall.flock fd LOCK_UN] })
      else
        some (some .EBADF, { k with trace := k.trace ++ [Syscall.flock fd LOCK_UN] }) := by
  unfold sys_flock
  by_cases h : fd < 0
  · have : ¬ (0 ≤ fd) := by omega
    simp [h, this]
  · have h0 : 0 ≤ fd := by omega
    cases hl : k.fds.lookup fd.toNat with
    | none => simp [h, hl]
    | some ino => simp [h, h0, hl, unlockHow_op]

theorem sys_close_trace (fd : Int) (k : Kernel) :
    (sys_close fd k).2.trace = k.trace ++ [Syscall.close fd] := by
  unfold sys_close
  by_cases h : fd < 0
  · simp [h]
  · cases hl : k.fds.lookup fd.toNat <;> simp [h, hl]

theorem sys_close_fs (fd : Int) (k : Kernel) : (sys_close fd k).2.fs = k.fs := by
  unfold sys_close
  by_cases h : fd < 0
  · simp [h]
  · cases hl : k.fds.lookup fd.toNat <;> simp [h, hl]

theorem sys_close_not_open (n : Nat) (k : Kernel) (ino : Nat) :
    (n, ino) ∉ (sys_close (n : Int) k).2.fds := by
  unfold sys_close
  have h1 : ¬ ((n : Int) < 0) := by omega
  simp only [h1, if_false, Int.toNat_ofNat]
  cases hl : k.fds.lookup n with
  | none =>
    intro hm
    obtain ⟨c, hc⟩ := lookup_isSome_of_mem k.fds n ino hm
    rw [hl] at hc
    exact Option.noConfusion hc
  | some i => simp [List.mem_filter]

theorem sys_close_locks_subset (fd : Int) (k : Kernel) :
    ∀ e ∈ (sys_close fd k).2.locks, e ∈ k.locks := by
  unfold sys_close
  by_cases h : fd < 0
  · simp [h]
  · cases hl : k.fds.lookup fd.toNat with
    | none => simp [h, hl]
    | some i =>
      simp only [h, if_false, hl, dropLocks]
      intro e he
      exact (List.mem_filter.mp he).1

theorem sys_close_fds_subset (fd : Int) (k : Kernel) :
    ∀ p ∈ (sys_close fd k).2.fds, p ∈ k.fds := by
  unfold sys_close
  by_cases h : fd < 0
  · simp [h]
  · cases hl : k.fds.lookup fd.toNat with
    | none => simp [h, hl]
    | some i =>
      simp only [h, if_false, hl]
      intro e he
      exact (List.mem_filter.mp he).1

/-- Unlock on an instance whose descriptor `n` is open in the kernel. -/
theorem Unlock_open (l : DirLock) (k : Kernel) (name : String) (n ino : Nat)
    (hf : l.f = some ⟨name, (n : Int)⟩) (hl : k.fds.lookup n = some ino) :
    l.Unlock k = some (none, { l with f := some ⟨name, -1⟩ },
      { k with fds := k.fds.filter (fun p => p.1 ≠ n),
               locks := dropLocks n (dropLocks n k.locks),
               trace := k.trace ++ [Syscall.flock n LOCK_UN, Syscall.close n],
               finalizers := k.finalizers.filter (fun x => x ≠ (n : Int)) }) := by
  have h1 : ¬ ((n : Int) < 0) := by omega
  have h2 : ¬ ((n : Int) = -1) := by omega
  have h0 : (0 : Int) ≤ n := by omega
  simp [DirLock.Unlock, syscall_Flock, flock_unlock, hf, File.Fd, h0, hl, File.Close, h2,
    sys_close, h1]

theorem flock_unlock_total (fd : Int) (k : Kernel) :
    ∃ r k1, sys_flock fd LOCK_UN k = some (r, k1) ∧
      k1.trace = k.trace ++ [Syscall.flock fd LOCK_UN] ∧ k1.fs = k.fs ∧ k1.fds = k.fds ∧
      (∀ e ∈ k1.locks, e ∈ k.locks) := by
  rw [flock_unlock]
  split
  · refine ⟨_, _, rfl, rfl, rfl, rfl, ?_⟩
    intro e he
    exact (List.mem_filter.mp he).1
  · exact ⟨_, _, rfl, rfl, rfl, rfl, fun e he => he⟩

/-- Unlock in terms of its two steps: the release request, then `Close` on the
file the instance held when Unlock was entered. -/
theorem Unlock_steps (l : DirLock) (k : Kernel) (r : Option Errno) (k1 : Kernel)
    (h : sys_flock (File.Fd l.f) LOCK_UN k = some (r, k1)) :
    l.Unlock k = some (r.map GoError.errno,
      { l with f := (File.Close l.f k1).2.1 }, (File.Close l.f k1).2.2) := by
  simp [DirLock.Unlock, syscall_Flock, h]

theorem Close_spec (f : Option File) (k : Kernel) :
    File.Fd (File.Close f k).2.1 = -1 ∧
    (File.Close f k).2.2.trace =
      k.trace ++ (if File.Fd f = -1 then [] else [Syscall.close (File.Fd f)]) ∧
    (File.Close f k).2.2.fs = k.fs ∧
    (∀ (n ino : Nat), File.Fd f = (n : Int) → (n, ino) ∉ (File.Close f k).2.2.fds) ∧
    (∀ e ∈ (File.Close f k).2.2.locks, e ∈ k.locks) ∧
    (∀ p ∈ (File.Close f k).2.2.fds, p ∈ k.fds) := by
  cases f with
  | none =>
    refine ⟨rfl, by simp [File.Close, File.Fd], rfl, ?_, fun e he => he, fun p hp => hp⟩
    intro n ino hn
    simp only [File.Fd] at hn
    omega
  | some f =>
    by_cases hc : f.sysfd = -1
    · refine ⟨by simp [File.Close, File.Fd, hc], by simp [File.Close, File.Fd, hc],
        by simp [File.Close, hc], ?_, by simp [File.Close, hc], by simp [File.Close, hc]⟩
      intro n ino hn
      simp only [File.Fd] at hn
      omega
    · refine ⟨by simp [File.Close, File.Fd, hc], ?_, ?_, ?_, ?_, ?_⟩
      · simp [File.Close, File.Fd, hc, sys_close_trace]
      · simp [File.Close, hc, sys_close_fs]
      · intro n ino hn
        simp only [File.Fd] at hn
        simp only [File.Close, hc, if_false, hn]
        exact sys_close_not_open n k ino
      · simpa [File.Close, hc] using sys_close_locks_subset f.sysfd k
      · simpa [File.Close, hc] using sys_close_fds_subset f.sysfd k

/-- C4. For every instance and kernel state, Unlock returns; the system calls
it issues are the release request `flock(fd, LOCK_UN)` on the instance's
descriptor followed by `close` of that descriptor, exactly once when the
instance holds a descriptor not yet closed (and not at all otherwise, so no
descriptor is closed twice); the value returned is the result of the release
step, nil when it succeeded and its error when it failed; and in both cases the
file is closed afterwards and its descriptor is no longer open in the kernel. -/
theorem Unlock_releases_then_closes (l : DirLock) (k : Kernel) :
    ∃ r k1 l1 k2,
      sys_flock (File.Fd l.f) LOCK_UN k = some (r, k1) ∧
      l.Unlock k = some (r.map GoError.errno, l1, k2) ∧
      l1.dir = l.dir ∧
      k2.trace = k.trace ++ Syscall.flock (File.Fd l.f) LOCK_UN ::
        (if File.Fd l.f = -1 then [] else [Syscall.close (File.Fd l.f)]) ∧
      File.Fd l1.f = -1 ∧
      (∀ (n ino : Nat), File.Fd l.f = (n : Int) → (n, ino) ∉ k2.fds) := by
  obtain ⟨r, k1, h, htr, -, -, -⟩ := flock_unlock_total (File.Fd l.f) k
  obtain ⟨c1, c2, -, c4, -, -⟩ := Close_spec l.f k1
  refine ⟨r, k1, _, _, h, Unlock_steps l k r k1 h, rfl, ?_, c1, c4⟩
  rw [c2, htr]
  simp

/-! ## Lock: grant, conflict, open failure -/

theorem conflicts_false_of_unlocked (k : Kernel) (fd ino : Nat) (ex : Bool)
    (h : k.unlocked ino) : conflicts fd ino ex k.locks = false := by
  simp only [conflicts, List.any_eq_false]
  intro e he
  have := h e he
  simp [this]

theorem conflicts_true_of_holder (locks : List FLock) (fd ino : Nat) (e : FLock)
    (he : e ∈ locks) (hi : e.ino = ino) (hfd : e.fd ≠ fd) :
    conflicts fd ino true locks = true := by
  simp only [conflicts, List.any_eq_true]
  exact ⟨e, he, by simp [hi, hfd]⟩

theorem mem_keys_of_mem (l : List (Nat × Nat)) (a b : Nat) (h : (a, b) ∈ l) :
    a ∈ l.map Prod.fst :=
  List.mem_map.mpr ⟨(a, b), h, rfl⟩

/-- What a granted Lock leaves behind, for any instance. -/
theorem Lock_granted_unlocked (l : DirLock) (k : Kernel) (node : Inode)
    (hp : k.fs.lookup l.dir = some node) (hr : node.readable = true)
    (hu : k.unlocked node.ino) :
    ∃ (fd : Nat) (k1 : Kernel),
      l.Lock k = some (none, { dir := l.dir, f := some ⟨l.dir, (fd : Int)⟩ }, k1) ∧
      fd ∉ k.fds.map Prod.fst ∧ (fd, node.ino) ∈ k1.fds ∧
      (⟨fd, node.ino, true⟩ : FLock) ∈ k1.locks ∧
      (∀ e ∈ k1.locks, e.ino = node.ino → e = ⟨fd, node.ino, true⟩) := by
  refine ⟨k.lowestFreeFd, _, Lock_granted l k node hp hr
    (conflicts_false_of_unlocked k _ _ _ hu), lowestFreeFd_not_open k, ?_, ?_, ?_⟩
  · simp
  · simp
  · intro e he hi
    simp only [List.mem_append, List.mem_singleton, dropLocks, List.mem_filter] at he
    rcases he with ⟨h1, -⟩ | h1
    · exact absurd hi (hu e h1)
    · exact h1

/-- C2. For every path that names an existing, readable directory on which the
lock table records no lock, Lock on `New path` returns nil; the instance then
stores the descriptor that was just opened (it was not open before and is open
now), and the lock table records that descriptor, and no other, as the
exclusive holder of the directory. -/
theorem Lock_fresh_directory_succeeds (k : Kernel) (path : String) (node : Inode)
    (hp : k.fs.lookup path = some node) (hd : node.kind = FileKind.directory)
    (hr : node.readable = true) (hu : k.unlocked node.ino) :
    ∃ (fd : Nat) (k1 : Kernel),
      (New path).Lock k = some (none, { dir := path, f := some ⟨path, (fd : Int)⟩ }, k1) ∧
      fd ∉ k.fds.map Prod.fst ∧ (fd, node.ino) ∈ k1.fds ∧
      (⟨fd, node.ino, true⟩ : FLock) ∈ k1.locks ∧
      (∀ e ∈ k1.locks, e.ino = node.ino → e = ⟨fd, node.ino, true⟩) := by
  have _ := hd
  exact Lock_granted_unlocked (New path) k node hp hr hu

theorem Lock_fresh_directory_succeeds_witness :
    ∃ (fd : Nat) (k1 : Kernel),
      (New "/tmp/x").Lock exampleKernel =
        some (none, { dir := "/tmp/x", f := some ⟨"/tmp/x", (fd : Int)⟩ }, k1) ∧
      fd ∉ exampleKernel.fds.map Prod.fst ∧ (fd, 11) ∈ k1.fds ∧
      (⟨fd, 11, true⟩ : FLock) ∈ k1.locks ∧
      (∀ e ∈ k1.locks, e.ino = 11 → e = ⟨fd, 11, true⟩) :=
  Lock_fresh_directory_succeeds exampleKernel "/tmp/x" ⟨11, .directory, true⟩
    (by decide) rfl rfl (by intro e he; simp [exampleKernel, Kernel.boot] at he)

/-- C3. For every instance whose path can be opened and whose directory is
exclusively locked through a descriptor that is open, Lock returns (it does not
wait), with the error whose text is
`cannot flock directory <dir> - resource temporarily unavailable`, `<dir>`
being the stored path; the descriptor it opened is new, stays open and is
stored on the instance; the lock table is unchanged; and Lock issued one open
and one lock request, the latter carrying both the exclusive and the
non-blocking flag. -/
theorem Lock_conflict_fails (l : DirLock) (k : Kernel) (node : Inode) (e : FLock)
    (hp : k.fs.lookup l.dir = some node) (hr : node.readable = true)
    (he : e ∈ k.locks) (hi : e.ino = node.ino) (hx : e.exclusive = true)
    (ho : (e.fd, e.ino) ∈ k.fds) :
    ∃ (fd : Nat) (err : GoError) (k1 : Kernel),
      l.Lock k = some (some err, { dir := l.dir, f := some ⟨l.dir, (fd : Int)⟩ }, k1) ∧
      err.Error = "cannot flock directory " ++ l.dir ++ " - " ++ Errno.EAGAIN.Error ∧
      Errno.EAGAIN.Error = "resource temporarily unavailable" ∧
      fd ≠ e.fd ∧ fd ∉ k.fds.map Prod.fst ∧ (fd, node.ino) ∈ k1.fds ∧
      k1.locks = k.locks ∧
      k1.trace = k.trace ++ [Syscall.openat l.dir, Syscall.flock fd (LOCK_EX ||| LOCK_NB)] ∧
      (LOCK_EX ||| LOCK_NB) &&& LOCK_EX = LOCK_EX ∧
      (LOCK_EX ||| LOCK_NB) &&& LOCK_NB = LOCK_NB := by
  have _ := hx
  have hne : e.fd ≠ k.lowestFreeFd := by
    intro h
    exact lowestFreeFd_not_open k (h ▸ mem_keys_of_mem _ _ _ ho)
  have hc := conflicts_true_of_holder k.locks k.lowestFreeFd node.ino e he hi hne
  refine ⟨k.lowestFreeFd, _, _, Lock_conflict l k node hp hr hc, rfl, rfl, fun h => hne h.symm,
    lowestFreeFd_not_open k, by simp, rfl, rfl, by decide, by decide⟩

theorem Lock_conflict_fails_witness :
    ∃ (fd : Nat) (err : GoError) (k1 : Kernel),
      (New "/tmp/x").Lock heldKernel =
        some (some err, { dir := "/tmp/x", f := some ⟨"/tmp/x", (fd : Int)⟩ }, k1) ∧
      err.Error = "cannot flock directory " ++ "/tmp/x" ++ " - " ++ Errno.EAGAIN.Error ∧
      Errno.EAGAIN.Error = "resource temporarily unavailable" ∧
      fd ≠ 0 ∧ fd ∉ heldKernel.fds.map Prod.fst ∧ (fd, 11) ∈ k1.fds ∧
      k1.locks = heldKernel.locks ∧
      k1.trace = heldKernel.trace ++
        [Syscall.openat "/tmp/x", Syscall.flock fd (LOCK_EX ||| LOCK_NB)] ∧
      (LOCK_EX ||| LOCK_NB) &&& LOCK_EX = LOCK_EX ∧
      (LOCK_EX ||| LOCK_NB) &&& LOCK_NB = LOCK_NB :=
  Lock_conflict_fails (New "/tmp/x") heldKernel ⟨11, .directory, true⟩ ⟨0, 11, true⟩
    (by decide) rfl (by decide) rfl rfl (by decide)

/-- C6. For every path that cannot be opened (it names nothing, or what it
names may not be read), Lock on `New path` returns the `PathError` of the open,
whose text is `open <path>: <OS error text>`; the only system call issued is
the open (no lock request); the instance is returned as built, without a
descriptor; the lock table and the table of open descriptors are unchanged; and
Lock by another fresh instance on any existing readable directory that is not
locked still returns nil afterwards. -/
theorem Lock_open_failure (k : Kernel) (path : String)
    (h : k.fs.lookup path = none ∨
      ∃ node, k.fs.lookup path = some node ∧ node.readable = false) :
    ∃ (e : Errno) (k1 : Kernel),
      (New path).Lock k = some (some (GoError.pathError "open" path (.errno e)), New path, k1) ∧
      (GoError.pathError "open" path (.errno e)).isOpenError = true ∧
      (GoError.pathError "open" path (.errno e)).Error = "open " ++ path ++ ": " ++ e.Error ∧
      (New path).f = none ∧
      k1.trace = k.trace ++ [Syscall.openat path] ∧
      k1.locks = k.locks ∧ k1.fds = k.fds ∧
      (∀ (path2 : String) (node2 : Inode), k.fs.lookup path2 = some node2 →
        node2.kind = FileKind.directory → node2.readable = true → k.unlocked node2.ino →
        ∃ l2 k2, (New path2).Lock k1 = some (none, l2, k2)) := by
  have later : ∀ (path2 : String) (node2 : Inode), k.fs.lookup path2 = some node2 →
      node2.kind = FileKind.directory → node2.readable = true → k.unlocked node2.ino →
      ∃ l2 k2, (New path2).Lock { k with trace := k.trace ++ [Syscall.openat path] } =
        some (none, l2, k2) := by
    intro path2 node2 hp _ hr hu
    obtain ⟨fd, k2, hl, -⟩ := Lock_granted_unlocked (New path2)
      { k with trace := k.trace ++ [Syscall.openat path] } node2 hp hr hu
    exact ⟨_, _, hl⟩
  rcases h with h | ⟨node, h, hr⟩
  · exact ⟨.ENOENT, _, Lock_open_enoent (New path) k h, rfl, rfl, rfl, rfl, rfl, rfl, later⟩
  · exact ⟨.EACCES, _, Lock_open_eacces (New path) k node h hr, rfl, rfl, rfl, rfl, rfl, rfl,
      later⟩

theorem Lock_open_failure_witness :
    ∃ (e : Errno) (k1 : Kernel),
      (New "/nowhere").Lock exampleKernel =
        some (some (GoError.pathError "open" "/nowhere" (.errno e)), New "/nowhere", k1) ∧
      (GoError.pathError "open" "/nowhere" (.errno e)).isOpenError = true ∧
      (GoError.pathError "open" "/nowhere" (.errno e)).Error =
        "open " ++ "/nowhere" ++ ": " ++ e.Error ∧
      (New "/nowhere").f = none ∧
      k1.trace = exampleKernel.trace ++ [Syscall.openat "/nowhere"] ∧
      k1.locks = exampleKernel.locks ∧ k1.fds = exampleKernel.fds ∧
      (∀ (path2 : String) (node2 : Inode), exampleKernel.fs.lookup path2 = some node2 →
        node2.kind = FileKind.directory → node2.readable = true →
        exampleKernel.unlocked node2.ino →
        ∃ l2 k2, (New path2).Lock k1 = some (none, l2, k2)) :=
  Lock_open_failure exampleKernel "/nowhere" (Or.inl (by decide))

/-- C7, refuted. In the example kernel `/etc/hosts` names a readable regular
file; Lock on `New "/etc/hosts"` returns nil, holding descriptor 0 with an
exclusive lock on the file: it does not fail, and it acquires a lock. -/
theorem Lock_regular_file_counterexample :
    exampleKernel.fs.lookup "/etc/hosts" = some ⟨12, FileKind.regular, true⟩ ∧
    (New "/etc/hosts").Lock exampleKernel =
      some (none, { dir := "/etc/hosts", f := some ⟨"/etc/hosts", 0⟩ },
        { fs := exampleFs, fds := [(0, 12)], locks := [⟨0, 12, true⟩],
          trace := [Syscall.openat "/etc/hosts", Syscall.flock 0 (LOCK_EX ||| LOCK_NB)],
          closeErrs := [], finalizers := [0] }) ∧
    ¬ ∃ err l1 k1, (New "/etc/hosts").Lock exampleKernel = some (some err, l1, k1) := by
  have h : (New "/etc/hosts").Lock exampleKernel =
      some (none, { dir := "/etc/hosts", f := some ⟨"/etc/hosts", 0⟩ },
        { fs := exampleFs, fds := [(0, 12)], locks := [⟨0, 12, true⟩],
          trace := [Syscall.openat "/etc/hosts", Syscall.flock 0 (LOCK_EX ||| LOCK_NB)],
          closeErrs := [], finalizers := [0] }) := by
    decide
  refine ⟨by decide, h, ?_⟩
  rintro ⟨err, l1, k1, h1⟩
  rw [h] at h1
  simp at h1

/-- C7, amended. For every path that names an existing, readable regular file
on which the lock table records no lock, Lock on `New path` returns nil, the
instance stores the descriptor just opened, and the lock table records that
descriptor as the exclusive holder of the file: the open does not ask for a
directory. -/
theorem Lock_regular_file_acquires (k : Kernel) (path : String) (node : Inode)
    (hp : k.fs.lookup path = some node) (hd : node.kind = FileKind.regular)
    (hr : node.readable = true) (hu : k.unlocked node.ino) :
    ∃ (fd : Nat) (k1 : Kernel),
      (New path).Lock k = some (none, { dir := path, f := some ⟨path, (fd : Int)⟩ }, k1) ∧
      fd ∉ k.fds.map Prod.fst ∧ (fd, node.ino) ∈ k1.fds ∧
      (⟨fd, node.ino, true⟩ : FLock) ∈ k1.locks ∧
      (∀ e ∈ k1.locks, e.ino = node.ino → e = ⟨fd, node.ino, true⟩) := by
  have _ := hd
  exact Lock_granted_unlocked (New path) k node hp hr hu

theorem Lock_regular_file_acquires_witness :
    ∃ (fd : Nat) (k1 : Kernel),
      (New "/etc/hosts").Lock exampleKernel =
        some (none, { dir := "/etc/hosts", f := some ⟨"/etc/hosts", (fd : Int)⟩ }, k1) ∧
      fd ∉ exampleKernel.fds.map Prod.fst ∧ (fd, 12) ∈ k1.fds ∧
      (⟨fd, 12, true⟩ : FLock) ∈ k1.locks ∧
      (∀ e ∈ k1.locks, e.ino = 12 → e = ⟨fd, 12, true⟩) :=
  Lock_regular_file_acquires exampleKernel "/etc/hosts" ⟨12, .regular, true⟩
    (by decide) rfl rfl (by intro e he; simp [exampleKernel, Kernel.boot] at he)

/-! ## Lock followed by Unlock -/

/-- Lock always returns, in one of four ways, decided by the path table, the
permission and the lock table. -/
theorem Lock_cases (l : DirLock) (k : Kernel) :
    (k.fs.lookup l.dir = none ∧
      l.Lock k = some (some (.pathError "open" l.dir (.errno .ENOENT)), l,
        { k with trace := k.trace ++ [Syscall.openat l.dir] })) ∨
    (∃ node, k.fs.lookup l.dir = some node ∧ node.readable = false ∧
      l.Lock k = some (some (.pathError "open" l.dir (.errno .EACCES)), l,
        { k with trace := k.trace ++ [Syscall.openat l.dir] })) ∨
    (∃ node, k.fs.lookup l.dir = some node ∧ node.readable = true ∧
      conflicts k.lowestFreeFd node.ino true k.locks = false ∧
      l.Lock k = some (none, { l with f := some ⟨l.dir, k.lowestFreeFd⟩ },
        { k with fds := k.fds ++ [(k.lowestFreeFd, node.ino)],
                 locks := dropLocks k.lowestFreeFd k.locks ++
                   [⟨k.lowestFreeFd, node.ino, true⟩],
                 trace := k.trace ++ [Syscall.openat l.dir,
                   Syscall.flock k.lowestFreeFd (LOCK_EX ||| LOCK_NB)],
                 finalizers := k.finalizers ++ [(k.lowestFreeFd : Int)] })) ∨
    (∃ node, k.fs.lookup l.dir = some node ∧ node.readable = true ∧
      conflicts k.lowestFreeFd node.ino true k.locks = true ∧
      l.Lock k = some (some (flockErrorf l.dir (.errno .EAGAIN)),
        { l with f := some ⟨l.dir, k.lowestFreeFd⟩ },
        { k with fds := k.fds ++ [(k.lowestFreeFd, node.ino)],
                 trace := k.trace ++ [Syscall.openat l.dir,
                   Syscall.flock k.lowestFreeFd (LOCK_EX ||| LOCK_NB)],
                 finalizers := k.finalizers ++ [(k.lowestFreeFd : Int)] })) := by
  cases hp : k.fs.lookup l.dir with
  | none => exact Or.inl ⟨rfl, Lock_open_enoent l k hp⟩
  | some node =>
    cases hr : node.readable with
    | false => exact Or.inr (Or.inl ⟨node, rfl, hr, Lock_open_eacces l k node hp hr⟩)
    | true =>
      cases hc : conflicts k.lowestFreeFd node.ino true k.locks with
      | false =>
        exact Or.inr (Or.inr (Or.inl ⟨node, rfl, hr, hc, Lock_granted l k node hp hr hc⟩))
      | true =>
        exact Or.inr (Or.inr (Or.inr ⟨node, rfl, hr, hc, Lock_conflict l k node hp hr hc⟩))

/-- A Lock that returned nil was granted: the shape of what it left. -/
theorem Lock_nil_inv (l l1 : DirLock) (k k1 : Kernel) (h : l.Lock k = some (none, l1, k1)) :
    ∃ node, k.fs.lookup l.dir = some node ∧ node.readable = true ∧
      conflicts k.lowestFreeFd node.ino true k.locks = false ∧
      l1 = { l with f := some ⟨l.dir, k.lowestFreeFd⟩ } ∧
      k1 = { k with fds := k.fds ++ [(k.lowestFreeFd, node.ino)],
                    locks := dropLocks k.lowestFreeFd k.locks ++
                      [⟨k.lowestFreeFd, node.ino, true⟩],
                    trace := k.trace ++ [Syscall.openat l.dir,
                      Syscall.flock k.lowestFreeFd (LOCK_EX ||| LOCK_NB)],
                    finalizers := k.finalizers ++ [(k.lowestFreeFd : Int)] } := by
  rcases Lock_cases l k with ⟨-, h1⟩ | ⟨node, -, -, h1⟩ | ⟨node, hp, hr, hc, h1⟩ |
    ⟨node, -, -, -, h1⟩
  · rw [h1] at h; simp at h
  · rw [h1] at h; simp at h
  · rw [h1] at h
    simp only [Option.some.injEq, Prod.mk.injEq, true_and] at h
    exact ⟨node, hp, hr, hc, h.1.symm, h.2.symm⟩
  · rw [h1] at h; simp at h

theorem conflicts_false_elim (locks : List FLock) (fd ino : Nat)
    (h : conflicts fd ino true locks = false) :
    ∀ e ∈ locks, e.ino = ino → e.fd = fd := by
  intro e he hi
  simp only [conflicts, List.any_eq_false] at h
  have := h e he
  simp only [hi, Bool.decide_eq_true, true_or, decide_True, Bool.and_true,
    Bool.true_and, decide_eq_true_eq, ne_eq, Decidable.not_not, Bool.or_true] at this
  simpa using this

/-- Unlock right after a granted Lock: the kernel is back to the tables before
the Lock, less any stale record of the descriptor. -/
theorem Unlock_after_granted (l : DirLock) (k : Kernel) (ino : Nat) :
    DirLock.Unlock { l with f := some ⟨l.dir, k.lowestFreeFd⟩ }
        { k with fds := k.fds ++ [(k.lowestFreeFd, ino)],
                 locks := dropLocks k.lowestFreeFd k.locks ++ [⟨k.lowestFreeFd, ino, true⟩],
                 trace := k.trace ++ [Syscall.openat l.dir,
                   Syscall.flock k.lowestFreeFd (LOCK_EX ||| LOCK_NB)],
                 finalizers := k.finalizers ++ [(k.lowestFreeFd : Int)] } =
      some (none, { l with f := some ⟨l.dir, -1⟩ },
        { k with fds := (k.fds ++ [(k.lowestFreeFd, ino)]).filter
                   (fun p => p.1 ≠ k.lowestFreeFd),
                 locks := dropLocks k.lowestFreeFd (dropLocks k.lowestFreeFd
                   (dropLocks k.lowestFreeFd k.locks ++ [⟨k.lowestFreeFd, ino, true⟩])),
                 trace := k.trace ++ [Syscall.openat l.dir,
                   Syscall.flock k.lowestFreeFd (LOCK_EX ||| LOCK_NB)] ++
                   [Syscall.flock k.lowestFreeFd LOCK_UN, Syscall.close k.lowestFreeFd],
                 finalizers := (k.finalizers ++ [(k.lowestFreeFd : Int)]).filter
                   (fun x => x ≠ (k.lowestFreeFd : Int)) }) := by
  have hl : (k.fds ++ [(k.lowestFreeFd, ino)]).lookup k.lowestFreeFd = some ino :=
    lookup_append_fresh _ _ _ (lookup_lowestFreeFd k)
  exact Unlock_open _ _ l.dir k.lowestFreeFd ino rfl hl

/-- C5. Lock/Unlock round trip: whenever Lock on an instance returned nil (for
a directory, or anything else its path names) and Unlock on that instance then
returned nil, the lock table holds no record on the inode of the path any more,
and Lock on `New` of the same path returns nil. -/
theorem Lock_Unlock_roundtrip (a0 a1 a2 : DirLock) (k0 k1 k2 : Kernel) (node : Inode)
    (hp : k0.fs.lookup a0.dir = some node)
    (hL : a0.Lock k0 = some (none, a1, k1))
    (hU : a1.Unlock k1 = some (none, a2, k2)) :
    k2.unlocked node.ino ∧ ∃ b k3, (New a0.dir).Lock k2 = some (none, b, k3) := by
  obtain ⟨node1, hp1, hr, hc, rfl, rfl⟩ := Lock_nil_inv a0 a1 k0 k1 hL
  rw [hp] at hp1
  cases hp1
  rw [Unlock_after_granted a0 k0 node.ino] at hU
  simp only [Option.some.injEq, Prod.mk.injEq, true_and] at hU
  obtain ⟨-, hk⟩ := hU
  have hfs : k2.fs = k0.fs := by rw [← hk]
  have hlocks : k2.locks = dropLocks k0.lowestFreeFd (dropLocks k0.lowestFreeFd
      (dropLocks k0.lowestFreeFd k0.locks ++ [⟨k0.lowestFreeFd, node.ino, true⟩])) := by
    rw [← hk]
  have hu : k2.unlocked node.ino := by
    intro e he hi
    rw [hlocks] at he
    simp only [dropLocks, List.mem_filter, List.mem_append, List.mem_singleton,
      decide_eq_true_eq] at he
    obtain ⟨⟨h1, -⟩, hne⟩ := he
    rcases h1 with ⟨h1, -⟩ | h1
    · exact hne (conflicts_false_elim _ _ _ hc e h1 hi)
    · exact hne (by rw [h1])
  refine ⟨hu, ?_⟩
  obtain ⟨fd, k3, h3, -⟩ :=
    Lock_granted_unlocked (New a0.dir) k2 node (by rw [hfs]; exact hp) hr hu
  exact ⟨_, _, h3⟩

theorem Lock_Unlock_roundtrip_witness :
    closedKernel.unlocked 11 ∧
    ∃ b k3, (New "/tmp/x").Lock closedKernel = some (none, b, k3) :=
  Lock_Unlock_roundtrip (New "/tmp/x") heldInstance closedInstance
    exampleKernel heldKernel closedKernel
    ⟨11, .directory, true⟩ (by decide) (by decide) (by decide)

/-! ## Lock twice on one instance -/

theorem lowestFreeFd_ne_of_open (k : Kernel) (fd ino : Nat) (h : (fd, ino) ∈ k.fds) :
    fd ≠ k.lowestFreeFd := by
  intro he
  exact lowestFreeFd_not_open k (he ▸ mem_keys_of_mem _ _ _ h)

theorem runFinalizer_mono (fd : Int) (k : Kernel) :
    (runFinalizer fd k).fs = k.fs ∧
    (∀ e ∈ (runFinalizer fd k).locks, e ∈ k.locks) ∧
    (∀ p ∈ (runFinalizer fd k).fds, p ∈ k.fds) := by
  obtain ⟨-, -, c3, -, c5, c6⟩ := Close_spec (some { name := "", sysfd := fd }) k
  exact ⟨c3, c5, c6⟩

/-- The finalizer of a file whose descriptor is open closes the descriptor and
drops its lock. -/
theorem runFinalizer_open (n ino : Nat) (k : Kernel) (h : (n, ino) ∈ k.fds) :
    (∀ i, (n, i) ∉ (runFinalizer (n : Int) k).fds) ∧
    (∀ e ∈ (runFinalizer (n : Int) k).locks, e.fd ≠ n) := by
  obtain ⟨c, hc⟩ := lookup_isSome_of_mem k.fds n ino h
  have h1 : ¬ ((n : Int) < 0) := by omega
  have h2 : ¬ ((n : Int) = -1) := by omega
  constructor
  · intro i
    simp [runFinalizer, File.Close, h2, sys_close, h1, hc, List.mem_filter]
  · intro e he
    simp only [runFinalizer, File.Close, h2, if_false, sys_close, h1, Int.toNat_ofNat, hc,
      dropLocks, List.mem_filter, decide_eq_true_eq] at he
    exact he.2

/-- The finalizer of another file leaves an open descriptor open. -/
theorem runFinalizer_other (fd : Int) (n ino : Nat) (k : Kernel) (h : (n, ino) ∈ k.fds)
    (hne : fd ≠ (n : Int)) : (n, ino) ∈ (runFinalizer fd k).fds := by
  unfold runFinalizer File.Close
  by_cases h2 : fd = -1
  · simpa [h2] using h
  · simp only [h2, if_false]
    unfold sys_close
    by_cases h1 : fd < 0
    · simpa [h1] using h
    · simp only [h1, if_false]
      cases hl : k.fds.lookup fd.toNat with
      | none => simpa using h
      | some c =>
        have hn : n ≠ fd.toNat := by omega
        simp only [List.mem_filter, decide_eq_true_eq]
        exact ⟨h, hn⟩

theorem finalize_all_mono (fds : List Int) :
    ∀ k : Kernel,
      (fds.foldl (fun k1 fd => runFinalizer fd k1) k).fs = k.fs ∧
      (∀ e ∈ (fds.foldl (fun k1 fd => runFinalizer fd k1) k).locks, e ∈ k.locks) ∧
      (∀ p ∈ (fds.foldl (fun k1 fd => runFinalizer fd k1) k).fds, p ∈ k.fds) := by
  induction fds with
  | nil => intro k; exact ⟨rfl, fun e he => he, fun p hp => hp⟩
  | cons fd rest ih =>
    intro k
    obtain ⟨a1, a2, a3⟩ := ih (runFinalizer fd k)
    obtain ⟨b1, b2, b3⟩ := runFinalizer_mono fd k
    exact ⟨by simpa [List.foldl] using a1.trans b1,
      fun e he => b2 e (a2 e (by simpa [List.foldl] using he)),
      fun p hp => b3 p (a3 p (by simpa [List.foldl] using hp))⟩

theorem finalize_all_closes (n ino : Nat) (fds : List Int) :
    ∀ k : Kernel,
      (((∀ i, (n, i) ∉ k.fds) ∧ (∀ e ∈ k.locks, e.fd ≠ n)) ∨
        ((n, ino) ∈ k.fds ∧ (n : Int) ∈ fds)) →
      (∀ i, (n, i) ∉ (fds.foldl (fun k1 fd => runFinalizer fd k1) k).fds) ∧
      (∀ e ∈ (fds.foldl (fun k1 fd => runFinalizer fd k1) k).locks, e.fd ≠ n) := by
  induction fds with
  | nil =>
    intro k h
    rcases h with h | ⟨-, h⟩
    · exact h
    · simp at h
  | cons fd rest ih =>
    intro k h
    simp only [List.foldl]
    apply ih
    obtain ⟨-, b2, b3⟩ := runFinalizer_mono fd k
    rcases h with ⟨h1, h2⟩ | ⟨h1, h2⟩
    · exact Or.inl ⟨fun i hi => h1 i (b3 _ hi), fun e he => h2 e (b2 e he)⟩
    · by_cases hfd : fd = (n : Int)
      · subst hfd
        exact Or.inl (runFinalizer_open n ino k h1)
      · refine Or.inr ⟨runFinalizer_other fd n ino k h1 hfd, ?_⟩
        rcases List.mem_cons.mp h2 with h3 | h3
        · exact absurd h3.symm hfd
        · exact h3

/-- A run of the garbage collector closes every open descriptor whose file has
a finalizer and is not live, and drops its lock; it adds nothing to the
tables. -/
theorem runtime_GC_spec (live : List File) (k : Kernel) (n ino : Nat)
    (hopen : (n, ino) ∈ k.fds) (hfin : (n : Int) ∈ k.finalizers)
    (hlive : ∀ f ∈ live, f.sysfd ≠ (n : Int)) :
    (runtime_GC live k).fs = k.fs ∧
    (∀ e ∈ (runtime_GC live k).locks, e ∈ k.locks) ∧
    (∀ i, (n, i) ∉ (runtime_GC live k).fds) ∧
    (∀ e ∈ (runtime_GC live k).locks, e.fd ≠ n) := by
  have hmem : (n : Int) ∈
      k.finalizers.filter (fun fd => !(live.any (fun f => f.sysfd = fd))) := by
    rw [List.mem_filter]
    refine ⟨hfin, ?_⟩
    simp only [Bool.not_eq_true', List.any_eq_false, decide_eq_true_eq]
    exact fun f hf => hlive f hf
  obtain ⟨a1, a2, -⟩ := finalize_all_mono
    (k.finalizers.filter (fun fd => !(live.any (fun f => f.sysfd = fd)))) k
  obtain ⟨c1, c2⟩ := finalize_all_closes n ino
    (k.finalizers.filter (fun fd => !(live.any (fun f => f.sysfd = fd)))) k
    (Or.inr ⟨hopen, hmem⟩)
  exact ⟨a1, a2, c1, c2⟩

/-- Lock, then Unlock, then Lock by a fresh instance, in a kernel where an
open descriptor `fd1` holds the exclusive lock on the path's inode: the first
Lock fails on the conflict, Unlock releases and closes the descriptor that Lock
opened and nothing else, and the last Lock fails on the conflict again. -/
theorem relock_while_held (l : DirLock) (k1 : Kernel) (node : Inode) (fd1 : Nat)
    (hp : k1.fs.lookup l.dir = some node) (hr : node.readable = true)
    (ho : (fd1, node.ino) ∈ k1.fds)
    (hh : (⟨fd1, node.ino, true⟩ : FLock) ∈ k1.locks) :
    ∃ (fd2 : Nat) (k2 k3 : Kernel) (l4 : DirLock) (k4 : Kernel),
      fd2 ≠ fd1 ∧
      l.Lock k1 = some (some (flockErrorf l.dir (.errno .EAGAIN)),
        { dir := l.dir, f := some ⟨l.dir, (fd2 : Int)⟩ }, k2) ∧
      k2.locks = k1.locks ∧
      DirLock.Unlock { dir := l.dir, f := some ⟨l.dir, (fd2 : Int)⟩ } k2 =
        some (none, { dir := l.dir, f := some ⟨l.dir, -1⟩ }, k3) ∧
      k3.trace = k2.trace ++ [Syscall.flock fd2 LOCK_UN, Syscall.close fd2] ∧
      (∀ i, (fd2, i) ∉ k3.fds) ∧
      (fd1, node.ino) ∈ k3.fds ∧ (⟨fd1, node.ino, true⟩ : FLock) ∈ k3.locks ∧
      (New l.dir).Lock k3 = some (some (flockErrorf l.dir (.errno .EAGAIN)), l4, k4) ∧
      k3.fs = k1.fs ∧ (∀ e ∈ k3.locks, e ∈ k1.locks) ∧
      ((fd1 : Int) ∈ k1.finalizers → (fd1 : Int) ∈ k3.finalizers) := by
  have hne : fd1 ≠ k1.lowestFreeFd := lowestFreeFd_ne_of_open k1 fd1 node.ino ho
  have hc : conflicts k1.lowestFreeFd node.ino true k1.locks = true :=
    conflicts_true_of_holder k1.locks _ node.ino ⟨fd1, node.ino, true⟩ hh rfl hne
  have hL := Lock_conflict l k1 node hp hr hc
  have hlk : (k1.fds ++ [(k1.lowestFreeFd, node.ino)]).lookup k1.lowestFreeFd = some node.ino :=
    lookup_append_fresh _ _ _ (lookup_lowestFreeFd k1)
  have hU := Unlock_open { dir := l.dir, f := some ⟨l.dir, (k1.lowestFreeFd : Int)⟩ }
    { k1 with fds := k1.fds ++ [(k1.lowestFreeFd, node.ino)],
              trace := k1.trace ++ [Syscall.openat l.dir,
                Syscall.flock k1.lowestFreeFd (LOCK_EX ||| LOCK_NB)],
              finalizers := k1.finalizers ++ [(k1.lowestFreeFd : Int)] }
    l.dir k1.lowestFreeFd node.ino rfl hlk
  have ho3 : (fd1, node.ino) ∈ (k1.fds ++ [(k1.lowestFreeFd, node.ino)]).filter
      (fun p => p.1 ≠ k1.lowestFreeFd) := by
    simp only [List.mem_filter, List.mem_append, decide_eq_true_eq]
    exact ⟨Or.inl ho, hne⟩
  have hh3 : (⟨fd1, node.ino, true⟩ : FLock) ∈
      dropLocks k1.lowestFreeFd (dropLocks k1.lowestFreeFd k1.locks) := by
    simp only [dropLocks, List.mem_filter, decide_eq_true_eq]
    exact ⟨⟨hh, hne⟩, hne⟩
  have hL3 := Lock_conflict (New l.dir)
    { k1 with fds := (k1.fds ++ [(k1.lowestFreeFd, node.ino)]).filter
                (fun p => p.1 ≠ k1.lowestFreeFd),
              locks := dropLocks k1.lowestFreeFd (dropLocks k1.lowestFreeFd k1.locks),
              trace := k1.trace ++ [Syscall.openat l.dir,
                Syscall.flock k1.lowestFreeFd (LOCK_EX ||| LOCK_NB)] ++
                [Syscall.flock k1.lowestFreeFd LOCK_UN, Syscall.close k1.lowestFreeFd],
              finalizers := (k1.finalizers ++ [(k1.lowestFreeFd : Int)]).filter
                (fun x => x ≠ (k1.lowestFreeFd : Int)) }
    node hp hr
    (conflicts_true_of_holder _ _ node.ino ⟨fd1, node.ino, true⟩ hh3 rfl
      (lowestFreeFd_ne_of_open _ fd1 node.ino ho3))
  refine ⟨k1.lowestFreeFd, _, _, _, _, fun h => hne h.symm, hL, rfl, hU, rfl, ?_, ho3, hh3, hL3,
    rfl, ?_, ?_⟩
  · intro i
    simp [List.mem_filter]
  · intro e he
    simp only [dropLocks, List.mem_filter] at he
    exact he.1.1
  · intro hf
    simp only [List.mem_filter, List.mem_append, decide_eq_true_eq]
    refine ⟨Or.inl hf, ?_⟩
    intro h
    exact hne (by exact_mod_cast h)

/-- C10, refuted. After Lock on the instance for `/tmp/x`, a second Lock on
the same instance fails on the conflict and stores descriptor 1 in place of
descriptor 0; Unlock closes descriptor 1 only.  No instance refers to the file
of descriptor 0 any more: when the garbage collector runs, its finalizer closes
descriptor 0, the lock is released, and Lock on a fresh instance for `/tmp/x`
returns nil. -/
theorem relock_collected_counterexample :
    (New "/tmp/x").Lock exampleKernel = some (none, heldInstance, heldKernel) ∧
    heldInstance.Lock heldKernel =
      some (some (GoError.errorString
          "cannot flock directory /tmp/x - resource temporarily unavailable"),
        degradedInstance, degradedKernel) ∧
    degradedInstance.Unlock degradedKernel = some (none, closedInstance, leakedKernel) ∧
    runtime_GC ([closedInstance].filterMap (fun l => l.f)) leakedKernel = collectedKernel ∧
    (0, 11) ∉ collectedKernel.fds ∧
    collectedKernel.locks = [] ∧
    (New "/tmp/x").Lock collectedKernel =
      some (none, heldInstance,
        { fs := exampleFs, fds := [(0, 11)], locks := [⟨0, 11, true⟩],
          trace := collectedKernel.trace ++ [Syscall.openat "/tmp/x", Syscall.flock 0 6],
          closeErrs := [], finalizers := [0] }) := by
  refine ⟨by decide, by decide, by decide, by decide, by decide, by decide, by decide⟩

/-- C10, amended. For every instance that holds the lock after a Lock that
returned nil (descriptor `fd1`, open and recorded as exclusive holder), a
second Lock on the same instance returns the conflict error and stores a new
descriptor `fd2` in place of `fd1`; the following Unlock returns nil and issues
the release request and the close on `fd2` only.  From then on no instance
refers to the file of `fd1`.  As long as the garbage collector has not run,
`fd1` is still open and still holds the exclusive lock, and Lock on a fresh
instance for the same path returns the conflict error.  Once the garbage
collector has run with that file not live, `fd1` is closed, no lock is left on
the inode, and Lock on a fresh instance returns nil. -/
theorem relock_same_instance (l0 l1 : DirLock) (k0 k1 : Kernel)
    (hL : l0.Lock k0 = some (none, l1, k1)) :
    ∃ (fd1 fd2 ino : Nat) (k2 k3 : Kernel) (l4 : DirLock) (k4 : Kernel),
      l1 = { dir := l0.dir, f := some ⟨l0.dir, (fd1 : Int)⟩ } ∧
      (fd1, ino) ∈ k1.fds ∧ (⟨fd1, ino, true⟩ : FLock) ∈ k1.locks ∧
      fd2 ≠ fd1 ∧
      l1.Lock k1 = some (some (flockErrorf l0.dir (.errno .EAGAIN)),
        { dir := l0.dir, f := some ⟨l0.dir, (fd2 : Int)⟩ }, k2) ∧
      (flockErrorf l0.dir (.errno .EAGAIN)).Error =
        "cannot flock directory " ++ l0.dir ++ " - " ++ "resource temporarily unavailable" ∧
      k2.locks = k1.locks ∧
      DirLock.Unlock { dir := l0.dir, f := some ⟨l0.dir, (fd2 : Int)⟩ } k2 =
        some (none, { dir := l0.dir, f := some ⟨l0.dir, -1⟩ }, k3) ∧
      k3.trace = k2.trace ++ [Syscall.flock fd2 LOCK_UN, Syscall.close fd2] ∧
      (∀ i, (fd2, i) ∉ k3.fds) ∧
      (fd1, ino) ∈ k3.fds ∧ (⟨fd1, ino, true⟩ : FLock) ∈ k3.locks ∧
      (New l0.dir).Lock k3 = some (some (flockErrorf l0.dir (.errno .EAGAIN)), l4, k4) ∧
      (∀ live : List File, (∀ f ∈ live, f.sysfd ≠ (fd1 : Int)) →
        (∀ i, (fd1, i) ∉ (runtime_GC live k3).fds) ∧
        (runtime_GC live k3).unlocked ino ∧
        ∃ l5 k5, (New l0.dir).Lock (runtime_GC live k3) = some (none, l5, k5)) := by
  obtain ⟨node, hp, hr, hc, h1, hk⟩ := Lock_nil_inv l0 l1 k0 k1 hL
  have hfs : k1.fs = k0.fs := by rw [hk]
  have ho : (k0.lowestFreeFd, node.ino) ∈ k1.fds := by rw [hk]; simp
  have hh : (⟨k0.lowestFreeFd, node.ino, true⟩ : FLock) ∈ k1.locks := by rw [hk]; simp
  have hfin : (k0.lowestFreeFd : Int) ∈ k1.finalizers := by rw [hk]; simp
  have hown : ∀ e ∈ k1.locks, e.ino = node.ino → e.fd = k0.lowestFreeFd := by
    intro e he hi
    rw [hk] at he
    simp only [dropLocks, List.mem_append, List.mem_filter, List.mem_singleton] at he
    rcases he with ⟨he, -⟩ | he
    · exact conflicts_false_elim _ _ _ hc e he hi
    · rw [he]
  have hd : l1.dir = l0.dir := by rw [h1]
  have hp1 : k1.fs.lookup l1.dir = some node := by rw [hfs, hd]; exact hp
  obtain ⟨fd2, k2, k3, l4, k4, c1, c2, c3, c4, c5, c6, c7, c8, c9, c10, c11, c12⟩ :=
    relock_while_held l1 k1 node k0.lowestFreeFd hp1 hr ho hh
  rw [hd] at c2 c4 c9
  refine ⟨k0.lowestFreeFd, fd2, node.ino, k2, k3, l4, k4, h1, ho, hh, c1, c2, rfl, c3, c4, c5,
    c6, c7, c8, c9, ?_⟩
  intro live hlive
  obtain ⟨g1, g2, g3, g4⟩ :=
    runtime_GC_spec live k3 k0.lowestFreeFd node.ino c7 (c12 hfin) hlive
  have hu : (runtime_GC live k3).unlocked node.ino := by
    intro e he hi
    exact g4 e he (hown e (c11 e (g2 e he)) hi)
  have hp5 : (runtime_GC live k3).fs.lookup (New l0.dir).dir = some node := by
    rw [g1, c10, hfs]; exact hp
  obtain ⟨fd5, k5, h5, -⟩ := Lock_granted_unlocked (New l0.dir) _ node hp5 hr hu
  exact ⟨g3, hu, _, _, h5⟩

theorem relock_same_instance_witness :
    ∃ (fd1 fd2 ino : Nat) (k2 k3 : Kernel) (l4 : DirLock) (k4 : Kernel),
      heldInstance = { dir := "/tmp/x", f := some ⟨"/tmp/x", (fd1 : Int)⟩ } ∧
      (fd1, ino) ∈ heldKernel.fds ∧ (⟨fd1, ino, true⟩ : FLock) ∈ heldKernel.locks ∧
      fd2 ≠ fd1 ∧
      heldInstance.Lock heldKernel =
        some (some (flockErrorf "/tmp/x" (.errno .EAGAIN)),
          { dir := "/tmp/x", f := some ⟨"/tmp/x", (fd2 : Int)⟩ }, k2) ∧
      (flockErrorf "/tmp/x" (.errno .EAGAIN)).Error =
        "cannot flock directory " ++ "/tmp/x" ++ " - " ++
          "resource temporarily unavailable" ∧
      k2.locks = heldKernel.locks ∧
      DirLock.Unlock { dir := "/tmp/x", f := some ⟨"/tmp/x", (fd2 : Int)⟩ } k2 =
        some (none, { dir := "/tmp/x", f := some ⟨"/tmp/x", -1⟩ }, k3) ∧
      k3.trace = k2.trace ++ [Syscall.flock fd2 LOCK_UN, Syscall.close fd2] ∧
      (∀ i, (fd2, i) ∉ k3.fds) ∧
      (fd1, ino) ∈ k3.fds ∧ (⟨fd1, ino, true⟩ : FLock) ∈ k3.locks ∧
      (New "/tmp/x").Lock k3 =
        some (some (flockErrorf "/tmp/x" (.errno .EAGAIN)), l4, k4) ∧
      (∀ live : List File, (∀ f ∈ live, f.sysfd ≠ (fd1 : Int)) →
        (∀ i, (fd1, i) ∉ (runtime_GC live k3).fds) ∧
        (runtime_GC live k3).unlocked ino ∧
        ∃ l5 k5, (New "/tmp/x").Lock (runtime_GC live k3) = some (none, l5, k5)) :=
  relock_same_instance (New "/tmp/x") heldInstance exampleKernel heldKernel (by decide)

/-! ## Mutual exclusion along every run -/

theorem LockInv_of_subset (a b : List FLock) (h : ∀ e ∈ a, e ∈ b) (hb : LockInv b) :
    LockInv a :=
  fun e1 h1 e2 h2 hx hi => hb e1 (h e1 h1) e2 (h e2 h2) hx hi

theorem LockInv_grant (locks : List FLock) (fd ino : Nat)
    (hc : conflicts fd ino true locks = false) (h : LockInv locks) :
    LockInv (dropLocks fd locks ++ [⟨fd, ino, true⟩]) := by
  intro e1 h1 e2 h2 hx hi
  simp only [dropLocks, List.mem_append, List.mem_filter, List.mem_singleton,
    decide_eq_true_eq] at h1 h2
  rcases h1 with ⟨m1, n1⟩ | r1 <;> rcases h2 with ⟨m2, n2⟩ | r2
  · exact h e1 m1 e2 m2 hx hi
  · subst r2
    exact absurd (conflicts_false_elim locks fd ino hc e1 m1 hi) n1
  · subst r1
    exact absurd (conflicts_false_elim locks fd ino hc e2 m2 hi.symm) n2
  · rw [r1, r2]

theorem Lock_preserves (l : DirLock) (k : Kernel) (h : LockInv k.locks) :
    ∃ r l1 k1, l.Lock k = some (r, l1, k1) ∧ LockInv k1.locks := by
  rcases Lock_cases l k with ⟨-, h1⟩ | ⟨node, -, -, h1⟩ | ⟨node, -, -, hc, h1⟩ |
    ⟨node, -, -, -, h1⟩
  · exact ⟨_, _, _, h1, h⟩
  · exact ⟨_, _, _, h1, h⟩
  · exact ⟨_, _, _, h1, LockInv_grant _ _ _ hc h⟩
  · exact ⟨_, _, _, h1, h⟩

theorem Unlock_preserves (l : DirLock) (k : Kernel) (h : LockInv k.locks) :
    ∃ r l1 k1, l.Unlock k = some (r, l1, k1) ∧ LockInv k1.locks := by
  obtain ⟨r, k1, hf, -, -, -, hsub⟩ := flock_unlock_total (File.Fd l.f) k
  obtain ⟨-, -, -, -, c5, -⟩ := Close_spec l.f k1
  refine ⟨_, _, _, Unlock_steps l k r k1 hf, ?_⟩
  exact LockInv_of_subset _ _ (fun e he => hsub e (c5 e he)) h

theorem runtime_GC_preserves (live : List File) (k : Kernel) (h : LockInv k.locks) :
    LockInv (runtime_GC live k).locks := by
  obtain ⟨-, a2, -⟩ := finalize_all_mono
    (k.finalizers.filter (fun fd => !(live.any (fun f => f.sysfd = fd)))) k
  exact LockInv_of_subset _ _ a2 h

theorem step_preserves (w : World) (c : Call) (h : LockInv w.kernel.locks) :
    ∃ w1, w.step c = some w1 ∧ LockInv w1.kernel.locks := by
  cases c with
  | New dir => exact ⟨_, rfl, h⟩
  | Lock i =>
    cases hg : w.heap[i]? with
    | none => exact ⟨w, by simp [World.step, hg], h⟩
    | some l =>
      obtain ⟨r, l1, k1, h1, h2⟩ := Lock_preserves l w.kernel h
      exact ⟨{ kernel := k1, heap := w.heap.set i l1 }, by simp [World.step, hg, h1], h2⟩
  | Unlock i =>
    cases hg : w.heap[i]? with
    | none => exact ⟨w, by simp [World.step, hg], h⟩
    | some l =>
      obtain ⟨r, l1, k1, h1, h2⟩ := Unlock_preserves l w.kernel h
      exact ⟨{ kernel := k1, heap := w.heap.set i l1 }, by simp [World.step, hg, h1], h2⟩
  | GC => exact ⟨_, rfl, runtime_GC_preserves _ _ h⟩

theorem run_preserves (calls : List Call) :
    ∀ w : World, LockInv w.kernel.locks →
      ∃ w1, w.run calls = some w1 ∧ LockInv w1.kernel.locks := by
  induction calls with
  | nil => intro w h; exact ⟨w, rfl, h⟩
  | cons c cs ih =>
    intro w h
    obtain ⟨w1, h1, h2⟩ := step_preserves w c h
    obtain ⟨w2, h3, h4⟩ := ih w1 h2
    exact ⟨w2, by simp [World.run, h1, h3], h4⟩

/-- C1. Mutual exclusion. From the booted kernel (empty lock table, any path
table, any errors pending for close) and no instance, every sequence of New,
Lock and Unlock calls on any number of instances, with runs of the garbage
collector anywhere in between, runs to the end (no call waits), and in the
state it reaches an open descriptor that holds the exclusive lock on an inode
is the only open descriptor holding a lock on that inode. -/
theorem mutual_exclusion_reachable (fs : List (String × Inode))
    (closeErrs : List (Nat × Errno)) (calls : List Call) :
    ∃ w, (World.boot fs closeErrs).run calls = some w ∧ w.kernel.MutualExclusion := by
  have h0 : LockInv (World.boot fs closeErrs).kernel.locks := by
    intro e1 h1
    simp [World.boot, Kernel.boot] at h1
  obtain ⟨w, h1, h2⟩ := run_preserves calls (World.boot fs closeErrs) h0
  exact ⟨w, h1, fun e1 m1 e2 m2 hx hi _ _ => h2 e1 m1 e2 m2 hx hi⟩

/-! ## Lock on an instance that was used before -/

/-- C9, refuted. The instance built by `New "/tmp/x"` locks (Lock returns nil)
and unlocks (Unlock returns nil) and is then CLOSED; Lock on that same instance
returns nil again and the instance is LOCKED.  A second instance whose Lock
failed on the conflict is DEGRADED; once the holder has unlocked, Lock on that
same instance returns nil and it is LOCKED. -/
theorem Lock_again_counterexample :
    (New "/tmp/x").Lock exampleKernel = some (none, heldInstance, heldKernel) ∧
    heldInstance.Unlock heldKernel = some (none, closedInstance, closedKernel) ∧
    closedInstance.phase closedKernel = Phase.CLOSED ∧
    closedInstance.Lock closedKernel =
      some (none, heldInstance,
        { fs := exampleFs, fds := [(0, 11)], locks := [⟨0, 11, true⟩],
          trace := closedKernel.trace ++ [Syscall.openat "/tmp/x", Syscall.flock 0 6],
          closeErrs := [], finalizers := [0] }) ∧
    heldInstance.phase
        { fs := exampleFs, fds := [(0, 11)], locks := [⟨0, 11, true⟩],
          trace := closedKernel.trace ++ [Syscall.openat "/tmp/x", Syscall.flock 0 6],
          closeErrs := [], finalizers := [0] } =
      Phase.LOCKED ∧
    (New "/tmp/x").Lock heldKernel =
      some (some (GoError.errorString
          "cannot flock directory /tmp/x - resource temporarily unavailable"),
        degradedInstance, degradedKernel) ∧
    degradedInstance.phase degradedKernel = Phase.DEGRADED ∧
    heldInstance.Unlock degradedKernel = some (none, closedInstance, releasedKernel) ∧
    degradedInstance.phase releasedKernel = Phase.DEGRADED ∧
    degradedInstance.Lock releasedKernel =
      some (none, heldInstance,
        { fs := exampleFs, fds := [(1, 11), (0, 11)], locks := [⟨0, 11, true⟩],
          trace := releasedKernel.trace ++ [Syscall.openat "/tmp/x", Syscall.flock 0 6],
          closeErrs := [], finalizers := [1, 0] }) ∧
    heldInstance.phase
        { fs := exampleFs, fds := [(1, 11), (0, 11)], locks := [⟨0, 11, true⟩],
          trace := releasedKernel.trace ++ [Syscall.openat "/tmp/x", Syscall.flock 0 6],
          closeErrs := [], finalizers := [1, 0] } =
      Phase.LOCKED := by
  refine ⟨by decide, by decide, by decide, by decide, by decide, by decide, by decide,
    by decide, by decide, by decide, by decide⟩

/-- C9, amended. Lock does not look at what the instance held before: on an
instance that is CLOSED or DEGRADED, whenever the path can be opened and the
lock table has no record on its inode, Lock opens a new descriptor, returns nil,
and the instance is LOCKED again. -/
theorem Lock_again_after_closed_or_degraded (l : DirLock) (k : Kernel) (node : Inode)
    (hph : l.phase k = Phase.CLOSED ∨ l.phase k = Phase.DEGRADED)
    (hp : k.fs.lookup l.dir = some node) (hr : node.readable = true)
    (hu : k.unlocked node.ino) :
    ∃ (fd : Nat) (k1 : Kernel),
      l.Lock k = some (none, { dir := l.dir, f := some ⟨l.dir, (fd : Int)⟩ }, k1) ∧
      fd ∉ k.fds.map Prod.fst ∧
      DirLock.phase { dir := l.dir, f := some ⟨l.dir, (fd : Int)⟩ } k1 = Phase.LOCKED := by
  have _ := hph
  obtain ⟨fd, k1, h1, h2, h3, h4, -⟩ := Lock_granted_unlocked l k node hp hr hu
  refine ⟨fd, k1, h1, h2, ?_⟩
  have hne : ¬ ((fd : Int) = -1) := by omega
  have hany : k1.locks.any
      (fun e => (e.fd : Int) = (fd : Int) ∧ e.exclusive = true ∧ (e.fd, e.ino) ∈ k1.fds) = true := by
    rw [List.any_eq_true]
    exact ⟨⟨fd, node.ino, true⟩, h4, by simpa using h3⟩
  simp only [DirLock.phase, hne, if_false, hany, if_true]

theorem Lock_again_after_closed_or_degraded_witness :
    ∃ (fd : Nat) (k1 : Kernel),
      closedInstance.Lock closedKernel =
        some (none, { dir := closedInstance.dir,
                      f := some ⟨closedInstance.dir, (fd : Int)⟩ }, k1) ∧
      fd ∉ closedKernel.fds.map Prod.fst ∧
      DirLock.phase { dir := closedInstance.dir,
                      f := some ⟨closedInstance.dir, (fd : Int)⟩ } k1 = Phase.LOCKED :=
  Lock_again_after_closed_or_degraded closedInstance closedKernel ⟨11, .directory, true⟩
    (Or.inl (by decide)) (by decide) rfl
    (by intro e he; simp [closedKernel] at he)

/-! ## How failures reach the caller -/

/-- C8, refuted. After Lock and Unlock of the instance for `/tmp/x`, a second
Unlock fails: the release step reports `EBADF`, and what reaches the caller is
that bare error, whose text `bad file descriptor` does not contain the path.
And a failure of the close step is swallowed: in the kernel where `close` on
`/tmp/x` reports `EINTR`, Unlock after Lock releases the lock, its `Close` fails
with `close /tmp/x: interrupted system call`, and Unlock returns nil. -/
theorem Unlock_error_counterexample :
    (New "/tmp/x").Lock exampleKernel = some (none, heldInstance, heldKernel) ∧
    heldInstance.Unlock heldKernel = some (none, closedInstance, closedKernel) ∧
    closedInstance.Unlock closedKernel =
      some (some (GoError.errno Errno.EBADF), closedInstance,
        { closedKernel with trace := closedKernel.trace ++ [Syscall.flock (-1) LOCK_UN] }) ∧
    (GoError.errno Errno.EBADF).Error = "bad file descriptor" ∧
    ¬ List.IsInfix closedInstance.dir.data (GoError.errno Errno.EBADF).Error.data ∧
    (New "/tmp/x").Lock flakyKernel = some (none, heldInstance, flakyHeldKernel) ∧
    sys_flock (File.Fd heldInstance.f) LOCK_UN flakyHeldKernel =
      some (none, flakyReleasedKernel) ∧
    File.Close heldInstance.f flakyReleasedKernel =
      (some (GoError.pathError "close" "/tmp/x" (GoError.errno Errno.EINTR)),
        closedInstance.f, flakyClosedKernel) ∧
    heldInstance.Unlock flakyHeldKernel = some (none, closedInstance, flakyClosedKernel) := by
  refine ⟨by decide, by decide, by decide, by decide, by decide, by decide, by decide,
    by decide, by decide⟩

/-- The close step of Unlock on an open descriptor whose inode has an error
pending: the release succeeds, `Close` reports the error. -/
theorem Close_error_after_release (l : DirLock) (k : Kernel) (r : Option Errno) (k1 : Kernel)
    (h : sys_flock (File.Fd l.f) LOCK_UN k = some (r, k1))
    (name : String) (n ino : Nat) (e : Errno)
    (hf : l.f = some ⟨name, (n : Int)⟩) (hl : k.fds.lookup n = some ino)
    (he : k.closeErrs.lookup ino = some e) :
    r = none ∧ (File.Close l.f k1).1 = some (GoError.pathError "close" name (.errno e)) := by
  have h0 : (0 : Int) ≤ n := by omega
  have h1 : ¬ ((n : Int) < 0) := by omega
  have h2 : ¬ ((n : Int) = -1) := by omega
  rw [flock_unlock] at h
  simp only [hf, File.Fd, h0, Int.toNat_ofNat, hl, Option.isSome_some, and_self, if_true,
    Option.some.injEq, Prod.mk.injEq] at h
  obtain ⟨hr, hk⟩ := h
  refine ⟨hr.symm, ?_⟩
  rw [← hk, hf]
  simp [File.Close, h2, sys_close, h1, hl, he]

/-- C8, amended. Every failure of Lock reaches the caller as an error that
carries the OS error text and the instance's path: when the open step fails
with `e`, Lock returns the `PathError` with text `open <dir>: <text of e>`;
when the lock step fails with `e`, Lock returns the error with text
`cannot flock directory <dir> - <text of e>`; and an error returned by Lock
always has one of these two texts.  A failure of Unlock reaches the caller as
the bare OS error of the release step, whose text is the OS error text alone,
without the path.  Unlock returns exactly the result of the release step; the
result of the close step is dropped, so that when the release succeeds and the
close then fails, Unlock returns nil. -/
theorem failures_reach_caller (l : DirLock) (k : Kernel) :
    (∃ r l1 k1, l.Lock k = some (r, l1, k1) ∧
      (∀ e k0, sys_open l.dir k = (Except.error e, k0) →
        r = some (GoError.pathError "open" l.dir (.errno e))) ∧
      (∀ (f : File) k0 e k2, os_Open l.dir k = (Except.ok f, k0) →
        sys_flock f.sysfd (LOCK_EX ||| LOCK_NB) k0 = some (some e, k2) →
        r = some (GoError.errorString
          ("cannot flock directory " ++ l.dir ++ " - " ++ e.Error))) ∧
      (∀ err, r = some err → ∃ e : Errno,
        err.Error = "open " ++ l.dir ++ ": " ++ e.Error ∨
        err.Error = "cannot flock directory " ++ l.dir ++ " - " ++ e.Error)) ∧
    (∃ r k1, sys_flock (File.Fd l.f) LOCK_UN k = some (r, k1) ∧
      l.Unlock k = some (r.map GoError.errno,
        { l with f := (File.Close l.f k1).2.1 }, (File.Close l.f k1).2.2) ∧
      (∀ e : Errno, (GoError.errno e).Error = e.Error) ∧
      (∀ (name : String) (n ino : Nat) (e : Errno),
        l.f = some ⟨name, (n : Int)⟩ → k.fds.lookup n = some ino →
        k.closeErrs.lookup ino = some e →
        r = none ∧
        (File.Close l.f k1).1 = some (GoError.pathError "close" name (.errno e)))) := by
  constructor
  · rcases Lock_cases l k with ⟨hp, h1⟩ | ⟨node, hp, hr, h1⟩ | ⟨node, hp, hr, hc, h1⟩ |
      ⟨node, hp, hr, hc, h1⟩
    · have ho : sys_open l.dir k =
          (.error .ENOENT, { k with trace := k.trace ++ [Syscall.openat l.dir] }) := by
        simp [sys_open, hp]
      refine ⟨_, _, _, h1, ?_, ?_, ?_⟩
      · intro e k0 he
        rw [ho] at he
        simp only [Prod.mk.injEq, Except.error.injEq] at he
        rw [← he.1]
      · intro f k0 e k2 he
        simp [os_Open, ho] at he
      · intro err he
        simp only [Option.some.injEq] at he
        exact ⟨.ENOENT, Or.inl (by rw [← he]; rfl)⟩
    · have ho : sys_open l.dir k =
          (.error .EACCES, { k with trace := k.trace ++ [Syscall.openat l.dir] }) := by
        simp [sys_open, hp, hr]
      refine ⟨_, _, _, h1, ?_, ?_, ?_⟩
      · intro e k0 he
        rw [ho] at he
        simp only [Prod.mk.injEq, Except.error.injEq] at he
        rw [← he.1]
      · intro f k0 e k2 he
        simp [os_Open, ho] at he
      · intro err he
        simp only [Option.some.injEq] at he
        exact ⟨.EACCES, Or.inl (by rw [← he]; rfl)⟩
    · have ho : sys_open l.dir k = (.ok k.lowestFreeFd,
          { k with fds := k.fds ++ [(k.lowestFreeFd, node.ino)],
                   trace := k.trace ++ [Syscall.openat l.dir] }) := by
        simp [sys_open, hp, hr]
      have hf := flock_lock_fresh k k.lowestFreeFd node.ino
        (k.trace ++ [Syscall.openat l.dir]) (k.finalizers ++ [(k.lowestFreeFd : Int)])
        (lookup_lowestFreeFd k)
      simp only [hc] at hf
      refine ⟨_, _, _, h1, ?_, ?_, ?_⟩
      · intro e k0 he
        rw [ho] at he
        simp at he
      · intro f k0 e k2 he hfl
        simp only [os_Open, ho, Prod.mk.injEq, Except.ok.injEq] at he
        obtain ⟨rfl, rfl⟩ := he
        rw [hf] at hfl
        simp at hfl
      · intro err he
        simp at he
    · have ho : sys_open l.dir k = (.ok k.lowestFreeFd,
          { k with fds := k.fds ++ [(k.lowestFreeFd, node.ino)],
                   trace := k.trace ++ [Syscall.openat l.dir] }) := by
        simp [sys_open, hp, hr]
      have hf := flock_lock_fresh k k.lowestFreeFd node.ino
        (k.trace ++ [Syscall.openat l.dir]) (k.finalizers ++ [(k.lowestFreeFd : Int)])
        (lookup_lowestFreeFd k)
      simp only [hc] at hf
      refine ⟨_, _, _, h1, ?_, ?_, ?_⟩
      · intro e k0 he
        rw [ho] at he
        simp at he
      · intro f k0 e k2 he hfl
        simp only [os_Open, ho, Prod.mk.injEq, Except.ok.injEq] at he
        obtain ⟨rfl, rfl⟩ := he
        rw [hf] at hfl
        simp only [if_true, Option.some.injEq, Prod.mk.injEq] at hfl
        rw [← hfl.1]
        rfl
      · intro err he
        simp only [Option.some.injEq] at he
        exact ⟨.EAGAIN, Or.inr (by rw [← he]; rfl)⟩
  · obtain ⟨r, k1, hf, -⟩ := flock_unlock_total (File.Fd l.f) k
    exact ⟨r, k1, hf, Unlock_steps l k r k1 hf, fun _ => rfl,
      fun name n ino e h1 h2 h3 => Close_error_after_release l k r k1 hf name n ino e h1 h2 h3⟩

end dirlock
